import Mathlib

/-!
Shallow embedding, in Lean 4, of the persistence layer of the healthy_vibe
repository: the file-backed storage repository
(`src/repositories/file_storage.py`, together with the pydantic models of
`src/repositories/models.py`) and the in-memory conversation state store
(`src/utils/state_manager.py`).

Conventions of the embedding:

* Python strings are `String` (identifiers), except in the state store where
  the key concatenation on `user_id` matters and strings are `List Char`.
* `datetime` / `date` values and `time.time()` readings are natural-number
  timestamps; every function of the source that reads the clock takes the
  reading as an explicit `now` argument.
* Python `int` is `Int`.  Float-valued payload fields that no operation in
  the repository reads or branches on (`weight`, `actual_weight`,
  `body_weight`, the `measurements` map) are omitted from the records.
* `threading.Lock` is non-reentrant: acquiring it while the same thread
  already holds it blocks that thread forever.  Public operations take a
  `held : Bool` flag saying whether the calling context already holds the
  instance lock (`False` for an external caller) and return a `PyResult`;
  the `deadlock` constructor models the permanent block, `error` models a
  raised exception (`StorageError`, pydantic `ValidationError`).  An
  `error`/`deadlock` result carries no mutated state; where the source has
  already performed a file write before raising or blocking, that partial
  write is noted in the doc comment of the operation.
* The JSON files are modelled by inductives distinguishing a missing file,
  the legacy bare-array shape and the modern two-key object shape; pydantic
  `parse_obj` is the explicit validation step the operations apply when they
  load items, exactly where the source calls it.  A record held in a file is
  "raw": the validators have not necessarily been run on it, which is how
  the source can persist a record that its own validator rejects.
* File-system writes are recorded as an event trace: `FsEvent.writeFile p`
  is `p.open("w")` followed by `json.dump`, `FsEvent.replace src dst` is
  `src.replace(dst)` (the atomic rename).
-/

namespace HealthyVibe

/-- Outcome of running one Python call: normal return, a raised exception
(with its message), or blocking forever on the non-reentrant lock. -/
inductive PyResult (α : Type) where
  | ok (a : α)
  | error (msg : String)
  | deadlock
  deriving DecidableEq

/-- `with self._lock:` on a non-reentrant `threading.Lock`: if the calling
thread already holds the lock the acquire blocks forever, otherwise the body
runs with the lock held. -/
def withLock {α : Type} (held : Bool) (body : PyResult α) : PyResult α :=
  if held then .deadlock else body

/-- Python dict assignment `d[k] = v` on an insertion-ordered dict: replace
in place when the key is present, append otherwise. -/
def dictSet {κ α : Type} [DecidableEq κ] (d : List (κ × α)) (k : κ) (v : α) :
    List (κ × α) :=
  match d with
  | [] => [(k, v)]
  | (k0, v0) :: rest =>
    if k0 = k then (k, v) :: rest else (k0, v0) :: dictSet rest k v

/-- Python `d.pop(k, None)`: remove the key if present. -/
def dictPop {κ α : Type} [DecidableEq κ] (d : List (κ × α)) (k : κ) :
    List (κ × α) :=
  d.filter (fun kv => kv.1 ≠ k)

/-- `day_of_week: Literal["mon", ..., "sun"]` of `WorkoutEntry`. -/
inductive Day where
  | mon | tue | wed | thu | fri | sat | sun
  deriving DecidableEq

/-- `rating: Literal["easy", "normal", "hard"]`. -/
inductive Rating where
  | easy | normal | hard
  deriving DecidableEq

/-- `models.Exercise` (the float-valued `weight` field is omitted). -/
structure Exercise where
  exercise_id : String
  name : String
  reps : Int
  sets : Int
  rest_seconds : Option Int
  deriving DecidableEq

/-- `models.WorkoutEntry`. -/
structure WorkoutEntry where
  entry_id : String
  day_of_week : Day
  exercises : List Exercise
  workout_name : Option String
  created_at : Nat
  completion_count : Int
  last_completed : Option Nat
  deriving DecidableEq

/-- `models.WorkoutPlan`.  The `ensure_entries` validator is not part of the
structure: it runs only where the source calls `parse_obj` (see
`parse_plan`), so a plan record stored in a file may be empty. -/
structure WorkoutPlan where
  plan_id : String
  user_id : String
  name : Option String
  start_date : Nat
  entries : List WorkoutEntry
  created_at : Nat
  is_active : Bool
  deriving DecidableEq

/-- `WorkoutPlan.parse_obj`: the `ensure_entries` validator rejects a plan
whose entry list is empty (`"Workout plan must contain at least one entry"`);
the other validators only backfill missing ids and cannot fail here. -/
def parse_plan (p : WorkoutPlan) : Except String WorkoutPlan :=
  if p.entries.isEmpty then
    .error "Workout plan must contain at least one entry"
  else
    .ok p

/-- `[WorkoutPlan.parse_obj(item) for item in ...]`: parse the stored plans
one by one, the first validator failure propagating as the raised
exception. -/
def parse_plans : List WorkoutPlan → Except String (List WorkoutPlan)
  | [] => .ok []
  | p :: rest =>
    match parse_plan p with
    | .error e => .error e
    | .ok q =>
      match parse_plans rest with
      | .error e => .error e
      | .ok qs => .ok (q :: qs)

/-- `models.UserProfile` (the float-valued `weight` field is omitted). -/
structure UserProfile where
  user_id : String
  age : Int
  updated_at : Nat
  deriving DecidableEq

/-- `models.ProgressEntry` (float-valued `weight` and `measurements`
omitted). -/
structure ProgressEntry where
  user_id : String
  date : Nat
  deriving DecidableEq

/-- `models.ExerciseProgress` (float-valued `actual_weight` omitted). -/
structure ExerciseProgress where
  exercise_id : String
  exercise_name : String
  actual_reps : List Int
  completed_sets : Int
  rating : Option Rating
  notes : Option String
  deriving DecidableEq

/-- `models.WorkoutExecution` (float-valued `body_weight` omitted). -/
structure WorkoutExecution where
  execution_id : String
  user_id : String
  workout_entry_id : String
  plan_id : Option String
  execution_date : Nat
  exercises_progress : List ExerciseProgress
  overall_rating : Option Rating
  notes : Option String
  deriving DecidableEq

/-- `models.ReminderConfig`. -/
structure ReminderConfig where
  user_id : String
  reminder_id : String
  time : Nat
  weekly : Bool
  message : String
  enabled : Bool
  deriving DecidableEq

/-- A `pathlib.Path` of this repository, split as pathlib does into the part
before the extension and the extension itself, so that `with_suffix`
(which replaces the extension) is exact. -/
structure PyPath where
  stem : String
  ext : String
  deriving DecidableEq

/-- `Path.with_suffix`: replace the extension. -/
def PyPath.with_suffix (p : PyPath) (s : String) : PyPath := { p with ext := s }

def profiles_path : PyPath := ⟨"data/users", ".json"⟩

def reminders_path : PyPath := ⟨"data/reminders", ".json"⟩

/-- `FileStorageRepository._workout_path`. -/
def workout_path (user_id : String) : PyPath := ⟨"data/workouts/" ++ user_id, ".json"⟩

/-- `FileStorageRepository._progress_path`. -/
def progress_path (user_id : String) : PyPath := ⟨"data/progress/" ++ user_id, ".json"⟩

/-- One observable write to the file system. -/
inductive FsEvent where
  /-- `path.open("w")` + `json.dump(...)`: the file at `p` is overwritten in
  place. -/
  | writeFile (p : PyPath)
  /-- `src.replace(dst)`: atomic rename of `src` over `dst`. -/
  | replace (src dst : PyPath)
  deriving DecidableEq

/-- The write trace of `FileStorageRepository._write_json`: dump the payload
to `path.with_suffix(".tmp")`, then atomically rename the temp file over the
target. -/
def write_json_events (path : PyPath) : List FsEvent :=
  [.writeFile (path.with_suffix ".tmp"), .replace (path.with_suffix ".tmp") path]

-- Profiles ------------------------------------------------------------------

/-- Content of `users.json`: `{ user_id → profile }`, insertion ordered. -/
abbrev ProfilesFile := List (String × UserProfile)

/-- `FileStorageRepository.save_profile`: read the whole dict, overwrite this
user's slot, persist through `_write_json`. -/
def save_profile (held : Bool) (file : ProfilesFile) (profile : UserProfile) :
    PyResult (ProfilesFile × List FsEvent) :=
  withLock held
    (.ok (dictSet file profile.user_id profile, write_json_events profiles_path))

-- Reminders -----------------------------------------------------------------

/-- Content of `reminders.json`: `{ user_id → { reminder_id → reminder } }`. -/
abbrev RemindersFile := List (String × List (String × ReminderConfig))

/-- `FileStorageRepository.save_reminder`. -/
def save_reminder (held : Bool) (file : RemindersFile) (reminder : ReminderConfig) :
    PyResult (RemindersFile × List FsEvent) :=
  withLock held
    (let user_reminders := (file.lookup reminder.user_id).getD []
     let user_reminders := dictSet user_reminders reminder.reminder_id reminder
     .ok (dictSet file reminder.user_id user_reminders, write_json_events reminders_path))

/-- `FileStorageRepository.delete_reminder`: writes (through `_write_json`)
only when the reminder id is present; otherwise nothing is written. -/
def delete_reminder (held : Bool) (file : RemindersFile) (user_id reminder_id : String) :
    PyResult (RemindersFile × List FsEvent) :=
  withLock held
    (let user_reminders := (file.lookup user_id).getD []
     if (user_reminders.lookup reminder_id).isSome then
       .ok (dictSet file user_id (dictPop user_reminders reminder_id),
            write_json_events reminders_path)
     else
       .ok (file, []))

-- Workouts ------------------------------------------------------------------

/-- On-disk content of `workouts/<user>.json`: absent, the legacy bare array
of plans, or the modern `{plans, standalone_workouts}` object. -/
inductive WorkoutFile where
  | missing
  | legacy (plans : List WorkoutPlan)
  | modern (plans : List WorkoutPlan) (standalone_workouts : List WorkoutEntry)
  deriving DecidableEq

/-- The in-memory dict `_load_workout_data` returns. -/
structure WorkoutData where
  plans : List WorkoutPlan
  standalone_workouts : List WorkoutEntry
  deriving DecidableEq

/-- `FileStorageRepository._load_workout_data`: missing file gives the empty
modern shape, a bare array is normalized to `{plans: raw, standalone_workouts: []}`,
a modern object is taken apart field by field. -/
def load_workout_data : WorkoutFile → WorkoutData
  | .missing => ⟨[], []⟩
  | .legacy ps => ⟨ps, []⟩
  | .modern ps ws => ⟨ps, ws⟩

/-- `FileStorageRepository._save_workout_data`: `json.dump` of the two-key
dict straight into `path.open("w")` — a direct in-place overwrite of the
target, with no temporary file and no rename. -/
def save_workout_data (user_id : String) (d : WorkoutData) :
    WorkoutFile × List FsEvent :=
  (.modern d.plans d.standalone_workouts, [.writeFile (workout_path user_id)])

/-- `[WorkoutPlan.parse_obj(item) for item in data["plans"]]`: parse every
stored plan, propagating the first validator failure. -/
def load_plans (f : WorkoutFile) : Except String (List WorkoutPlan) :=
  parse_plans (load_workout_data f).plans

/-- The nested search loop of `get_workout_entry`: first entry with the id,
scanning plans in storage order and each plan's entries in order. -/
def find_entry_in_plans (plans : List WorkoutPlan) (entry_id : String) :
    Option WorkoutEntry :=
  plans.findSome? (fun p => p.entries.find? (fun e => e.entry_id == entry_id))

/-- `FileStorageRepository.get_workout_entry`: search all plans' entries,
then the standalone list; `None` when the id is nowhere.  Takes no lock. -/
def get_workout_entry (f : WorkoutFile) (entry_id : String) :
    PyResult (Option WorkoutEntry) :=
  match load_plans f with
  | .error e => .error e
  | .ok plans =>
    match find_entry_in_plans plans entry_id with
    | some e => .ok (some e)
    | none =>
      .ok ((load_workout_data f).standalone_workouts.find?
            (fun w => w.entry_id == entry_id))

/-- `FileStorageRepository.get_workout_entries_by_day`: matching entries from
the plans (plans in storage order, entries in order), then matching
standalone entries in storage order. -/
def get_workout_entries_by_day (f : WorkoutFile) (day : Day) :
    PyResult (List WorkoutEntry) :=
  match load_plans f with
  | .error e => .error e
  | .ok plans =>
    .ok ((plans.flatMap (fun p => p.entries.filter (fun e => e.day_of_week == day)))
          ++ (load_workout_data f).standalone_workouts.filter
              (fun w => w.day_of_week == day))

/-- `FileStorageRepository.get_all_workout_entries`: every plan's entries in
order, then every standalone entry. -/
def get_all_workout_entries (f : WorkoutFile) : PyResult (List WorkoutEntry) :=
  match load_plans f with
  | .error e => .error e
  | .ok plans =>
    .ok (plans.flatMap (fun p => p.entries)
          ++ (load_workout_data f).standalone_workouts)

/-- The enumerate-and-replace loop over one entry list: replace the first
entry carrying the id, `none` when the id does not occur. -/
def replace_entry_in_list (entries : List WorkoutEntry) (entry_id : String)
    (entry : WorkoutEntry) : Option (List WorkoutEntry) :=
  match entries with
  | [] => none
  | e :: rest =>
    if e.entry_id == entry_id then some (entry :: rest)
    else (replace_entry_in_list rest entry_id entry).map (fun l => e :: l)

/-- The outer loop of `update_workout_entry` over the plans: patch the first
plan containing the id, leaving every other plan untouched. -/
def replace_entry_in_plans (plans : List WorkoutPlan) (entry_id : String)
    (entry : WorkoutEntry) : Option (List WorkoutPlan) :=
  match plans with
  | [] => none
  | p :: rest =>
    match replace_entry_in_list p.entries entry_id entry with
    | some es => some ({ p with entries := es } :: rest)
    | none => (replace_entry_in_plans rest entry_id entry).map (fun l => p :: l)

/-- `FileStorageRepository.update_workout_entry`: under the lock, parse the
plans and replace the entry in place inside the owning plan; failing that,
replace it in the standalone list; failing that, raise
`StorageError("Workout entry <id> not found")` without writing anything. -/
def update_workout_entry (held : Bool) (user_id : String) (f : WorkoutFile)
    (entry_id : String) (entry : WorkoutEntry) :
    PyResult (WorkoutFile × List FsEvent) :=
  withLock held
    (let data := load_workout_data f
     match parse_plans data.plans with
     | .error e => .error e
     | .ok plans =>
       match replace_entry_in_plans plans entry_id entry with
       | some plans2 => .ok (save_workout_data user_id { data with plans := plans2 })
       | none =>
         match replace_entry_in_list data.standalone_workouts entry_id entry with
         | some ws =>
           .ok (save_workout_data user_id { data with standalone_workouts := ws })
         | none => .error ("Workout entry " ++ entry_id ++ " not found"))

/-- `FileStorageRepository.delete_workout_entry`: under the lock, drop every
entry carrying the id from every plan and from the standalone list, then
persist unconditionally — also when nothing was removed, and also when a
plan's entry list has just become empty. -/
def delete_workout_entry (held : Bool) (user_id : String) (f : WorkoutFile)
    (entry_id : String) : PyResult (WorkoutFile × List FsEvent) :=
  withLock held
    (let data := load_workout_data f
     match parse_plans data.plans with
     | .error e => .error e
     | .ok plans =>
       let plans2 := plans.map (fun p =>
         { p with entries := p.entries.filter (fun e => e.entry_id != entry_id) })
       let ws := data.standalone_workouts.filter (fun w => w.entry_id != entry_id)
       .ok (save_workout_data user_id ⟨plans2, ws⟩))

/-- The find-index-then-replace loop of `save_workout_plan`: replace the
first plan with the same `plan_id` at its position, else append. -/
def upsert_plan (plans : List WorkoutPlan) (plan : WorkoutPlan) : List WorkoutPlan :=
  match plans with
  | [] => [plan]
  | p :: rest =>
    if p.plan_id == plan.plan_id then plan :: rest
    else p :: upsert_plan rest plan

/-- `FileStorageRepository.save_workout_plan`: upsert by `plan_id`. -/
def save_workout_plan (held : Bool) (f : WorkoutFile) (plan : WorkoutPlan) :
    PyResult (WorkoutFile × List FsEvent) :=
  withLock held
    (let data := load_workout_data f
     match parse_plans data.plans with
     | .error e => .error e
     | .ok plans =>
       .ok (save_workout_data plan.user_id { data with plans := upsert_plan plans plan }))

/-- The deactivation loop of `deactivate_plan`: flip `is_active` on the
first plan with the id (the loop breaks), no-op when absent. -/
def deactivate_in_list (plans : List WorkoutPlan) (plan_id : String) :
    List WorkoutPlan :=
  match plans with
  | [] => []
  | p :: rest =>
    if p.plan_id == plan_id then { p with is_active := false } :: rest
    else p :: deactivate_in_list rest plan_id

/-- `FileStorageRepository.deactivate_plan`. -/
def deactivate_plan (held : Bool) (user_id : String) (f : WorkoutFile)
    (plan_id : String) : PyResult (WorkoutFile × List FsEvent) :=
  withLock held
    (let data := load_workout_data f
     match parse_plans data.plans with
     | .error e => .error e
     | .ok plans =>
       .ok (save_workout_data user_id { data with plans := deactivate_in_list plans plan_id }))

/-- The find-index-then-replace loop of `save_standalone_workout`: replace
the first standalone entry with the same `entry_id` at its position, else
append. -/
def upsert_standalone (ws : List WorkoutEntry) (w : WorkoutEntry) :
    List WorkoutEntry :=
  match ws with
  | [] => [w]
  | x :: rest =>
    if x.entry_id == w.entry_id then w :: rest
    else x :: upsert_standalone rest w

/-- `FileStorageRepository.save_standalone_workout`: upsert by `entry_id`
against the standalone list only; the stored plans are passed through raw
(they are not parsed by this operation). -/
def save_standalone_workout (held : Bool) (user_id : String) (f : WorkoutFile)
    (w : WorkoutEntry) : PyResult (WorkoutFile × List FsEvent) :=
  withLock held
    (let data := load_workout_data f
     .ok (save_workout_data user_id
       { data with standalone_workouts := upsert_standalone data.standalone_workouts w }))

-- Progress ------------------------------------------------------------------

/-- On-disk content of `progress/<user>.json`. -/
inductive ProgressFile where
  | missing
  | legacy (body_progress : List ProgressEntry)
  | modern (body_progress : List ProgressEntry)
      (workout_executions : List WorkoutExecution)
  deriving DecidableEq

/-- The in-memory dict `_load_progress_data` returns. -/
structure ProgressData where
  body_progress : List ProgressEntry
  workout_executions : List WorkoutExecution
  deriving DecidableEq

/-- `FileStorageRepository._load_progress_data`: missing file gives the
empty modern shape, a bare array is normalized to
`{body_progress: raw, workout_executions: []}`. -/
def load_progress_data : ProgressFile → ProgressData
  | .missing => ⟨[], []⟩
  | .legacy es => ⟨es, []⟩
  | .modern es xs => ⟨es, xs⟩

/-- `FileStorageRepository._save_progress_data`: like `_save_workout_data`,
a direct in-place overwrite of the target file. -/
def save_progress_data (user_id : String) (d : ProgressData) :
    ProgressFile × List FsEvent :=
  (.modern d.body_progress d.workout_executions, [.writeFile (progress_path user_id)])

/-- `FileStorageRepository.add_progress_entry`. -/
def add_progress_entry (held : Bool) (f : ProgressFile) (entry : ProgressEntry) :
    PyResult (ProgressFile × List FsEvent) :=
  withLock held
    (let data := load_progress_data f
     .ok (save_progress_data entry.user_id
       { data with body_progress := data.body_progress ++ [entry] }))

/-- The two files of one user that `save_workout_execution` touches. -/
structure UserFiles where
  workouts : WorkoutFile
  progress : ProgressFile
  deriving DecidableEq

/-- `FileStorageRepository.save_workout_execution`: under the lock, append
the execution to `workout_executions` and persist the progress file; then
look the referenced entry up with `get_workout_entry` (which takes no lock):
if absent, stop silently; if present, bump `completion_count`, set
`last_completed`, and call `update_workout_entry` — which tries to acquire
the instance lock this thread already holds, so the call blocks forever
(the progress append has been written by then, but the statistics never
are; a `deadlock` result leaves the partial progress write implicit). -/
def save_workout_execution (held : Bool) (st : UserFiles) (ex : WorkoutExecution) :
    PyResult (UserFiles × List FsEvent) :=
  withLock held
    (let data := load_progress_data st.progress
     let data2 := { data with workout_executions := data.workout_executions ++ [ex] }
     let saved := save_progress_data ex.user_id data2
     let st2 : UserFiles := { st with progress := saved.1 }
     match get_workout_entry st2.workouts ex.workout_entry_id with
     | .error e => .error e
     | .deadlock => .deadlock
     | .ok none => .ok (st2, saved.2)
     | .ok (some w) =>
       let w2 := { w with completion_count := w.completion_count + 1,
                          last_completed := some ex.execution_date }
       match update_workout_entry true ex.user_id st2.workouts ex.workout_entry_id w2 with
       | .ok (wf, evs) => .ok ({ st2 with workouts := wf }, saved.2 ++ evs)
       | .error e => .error e
       | .deadlock => .deadlock)

-- State store (`src/utils/state_manager.py`) --------------------------------

/-- A Python string, as the list of its characters; the state store builds
its keys by string concatenation, which is what this claim set is about. -/
abbrev PyStr := List Char

/-- `STATE_TIMEOUT = 30 * 60` seconds. -/
def STATE_TIMEOUT : Nat := 30 * 60

/-- A conversation-state dict `Dict[str, Any]`, its values abstracted to
strings (nothing in the store reads them). -/
abbrev StateVal := List (PyStr × PyStr)

/-- `UserStateManager`: the flat `_states` dict keyed by the concatenated
`"user_id:state_type"` string, and the nested `_state_timestamps` dict keyed
by user then by state type. -/
structure UserStateManager where
  states : PyStr → Option StateVal
  state_timestamps : PyStr → Option (PyStr → Option Nat)

/-- A fresh `UserStateManager()`. -/
def emptySM : UserStateManager := ⟨fun _ => none, fun _ => none⟩

/-- The key construction `f"{user_id}:{state_type}"`. -/
def state_key (user_id state_type : PyStr) : PyStr := user_id ++ ':' :: state_type

/-- `UserStateManager.set_state`: store under the concatenated key and stamp
`_state_timestamps[user_id][state_type]` with the clock reading `now`. -/
def set_state (sm : UserStateManager) (now : Nat) (user_id state_type : PyStr)
    (state : StateVal) : UserStateManager :=
  let inner := (sm.state_timestamps user_id).getD (fun _ => none)
  { states := fun k =>
      if k = state_key user_id state_type then some state else sm.states k,
    state_timestamps := fun u =>
      if u = user_id then some (fun t => if t = state_type then some now else inner t)
      else sm.state_timestamps u }

/-- `UserStateManager.get_state` at clock reading `now`: under the instance
lock, when a timestamp exists and `now - timestamp > STATE_TIMEOUT` the
source calls `self._clear_state(...)`, which opens `with self._lock:` on the
lock this thread is already holding — the non-reentrant acquire blocks
forever, hence `deadlock`; otherwise the flat dict is consulted under the
concatenated key.  On every reachable `ok` path the store is unmutated, so
only the value is returned. -/
def get_state (sm : UserStateManager) (now : Nat) (user_id state_type : PyStr) :
    PyResult (Option StateVal) :=
  match sm.state_timestamps user_id with
  | some inner =>
    match inner state_type with
    | some ts =>
      if now - ts > STATE_TIMEOUT then
        .deadlock
      else
        .ok (sm.states (state_key user_id state_type))
    | none => .ok (sm.states (state_key user_id state_type))
  | none => .ok (sm.states (state_key user_id state_type))

/-- `UserStateManager.clear_state` (public, called with the lock free, so
`_clear_state` acquires it normally): drop the flat entry and the nested
timestamp. -/
def clear_state (sm : UserStateManager) (user_id state_type : PyStr) :
    UserStateManager :=
  { states := fun k =>
      if k = state_key user_id state_type then none else sm.states k,
    state_timestamps := fun u =>
      if u = user_id then
        match sm.state_timestamps u with
        | some inner => some (fun t => if t = state_type then none else inner t)
        | none => none
      else sm.state_timestamps u }

/-- `current_state.update(updates)`: shallow merge, each key of `updates`
assigned over the current dict in order. -/
def dictUpdate (d updates : StateVal) : StateVal :=
  updates.foldl (fun acc kv => dictSet acc kv.1 kv.2) d

/-- `UserStateManager.update_state`: `get_state` (or the empty dict), merge
the partial update over it, write back through `set_state`.  Both inner
calls take and release the lock themselves; the `get_state` of an expired
entry therefore deadlocks here too. -/
def update_state (sm : UserStateManager) (now : Nat) (user_id state_type : PyStr)
    (updates : StateVal) : PyResult UserStateManager :=
  match get_state sm now user_id state_type with
  | .ok current =>
    .ok (set_state sm now user_id state_type (dictUpdate (current.getD []) updates))
  | .error e => .error e
  | .deadlock => .deadlock

/-- `UserStateManager.clear_all_states`: pop every flat key that starts with
`f"{user_id}:"` and drop the user's whole timestamp sub-dict. -/
def clear_all_states (sm : UserStateManager) (user_id : PyStr) : UserStateManager :=
  { states := fun k =>
      if (user_id ++ [':']).isPrefixOf k then none else sm.states k,
    state_timestamps := fun u =>
      if u = user_id then none else sm.state_timestamps u }

-- Predicates and concrete fixtures ------------------------------------------

/-- Does a workout file have the modern two-key object shape? -/
def is_modern_workout : WorkoutFile → Bool
  | .modern _ _ => true
  | _ => false

/-- Does a progress file have the modern two-key object shape? -/
def is_modern_progress : ProgressFile → Bool
  | .modern _ _ => true
  | _ => false

/-- A concrete Monday entry with id `"e1"` and no completions yet. -/
def sampleEntry : WorkoutEntry := ⟨"e1", .mon, [], none, 0, 0, none⟩

/-- A concrete Tuesday entry with id `"e2"`. -/
def sampleEntry2 : WorkoutEntry := ⟨"e2", .tue, [], none, 0, 0, none⟩

/-- A plan of user `"u"` whose only entry is `sampleEntry`. -/
def samplePlan : WorkoutPlan := ⟨"p1", "u", none, 0, [sampleEntry], 0, true⟩

/-- A plan of user `"u"` holding `sampleEntry` and `sampleEntry2`. -/
def samplePlan2 : WorkoutPlan := ⟨"p2", "u", none, 0, [sampleEntry, sampleEntry2], 0, true⟩

/-- A concrete execution by user `"u"` at timestamp 42 referencing the given
entry id. -/
def sampleExec (target : String) : WorkoutExecution :=
  ⟨"x1", "u", target, none, 42, [], none, none⟩

/-- A concrete conversation state. -/
def sampleVal : StateVal := [(['k'], ['v'])]

/-- A second entry carrying the same id `"e1"` as `sampleEntry` but a
different payload. -/
def sampleEntryB : WorkoutEntry := ⟨"e1", .wed, [], none, 7, 0, none⟩

/-- The timestamp the store holds for the pair `(u, t)`: an observation of
the nested `_state_timestamps` dict, used to state lemmas about
`get_state`. -/
def tstamp (sm : UserStateManager) (u t : PyStr) : Option Nat :=
  match sm.state_timestamps u with
  | some g => g t
  | none => none

-- Theorems -------------------------------------------------------------------

/-- C1, counterexample.  `save_standalone_workout` — a repository write
operation — persists through `_save_workout_data`: its whole write trace is
one direct in-place `open("w")`/`dump` of the target file
`workouts/u.json`, the target is written directly, and no temporary path
and no atomic rename appear.  This contradicts the claim that every write
operation goes through a temporary path and an atomic rename and that no
write operation writes directly to the target file. -/
theorem save_standalone_writes_target_directly :
    save_standalone_workout false "u" .missing sampleEntry
        = .ok (.modern [] [sampleEntry], [.writeFile (workout_path "u")])
      ∧ FsEvent.writeFile (workout_path "u") ∈ [FsEvent.writeFile (workout_path "u")]
      ∧ [FsEvent.writeFile (workout_path "u")] ≠ write_json_events (workout_path "u") := by
  refine ⟨by decide, by decide, by decide⟩

/-- C2.  `save_workout_execution` holds the repository's non-reentrant
`threading.Lock` when it calls `update_workout_entry`, which immediately
tries to acquire that same lock.  So whenever the referenced entry exists
(here: standalone entry `"e1"` with `completion_count = 0`), the call blocks
forever and the completion-count is never incremented — instead of
completing with the count at 1 as the claim states.  When the referenced
entry does not exist, the branch that takes the lock again is skipped: the
execution is appended to `workout_executions`, the progress file is
persisted, and the workout file is untouched, exactly as claimed. -/
theorem save_execution_deadlocks_on_existing_entry :
    save_workout_execution false ⟨.modern [] [sampleEntry], .missing⟩ (sampleExec "e1")
        = .deadlock
      ∧ save_workout_execution false ⟨.modern [] [sampleEntry], .missing⟩ (sampleExec "zz")
          = .ok (⟨.modern [] [sampleEntry], .modern [] [sampleExec "zz"]⟩,
                 [.writeFile (progress_path "u")]) := by
  refine ⟨by decide, by decide⟩

/-- C3.  `delete_workout_entry` filters the deleted id out of every plan and
persists unconditionally, with no validation of the patched plans: deleting
the only entry `"e1"` of `samplePlan` stores that plan with an empty entry
list.  The stored record violates the code's own `ensure_entries`
validator — `WorkoutPlan.parse_obj` rejects it — so the very next read of
the user's workout data (`get_workout_entry` here) raises instead of
returning.  The claimed invariant that every stored plan keeps at least one
entry after `delete_workout_entry` is therefore violated by the code. -/
theorem delete_stores_empty_plan :
    delete_workout_entry false "u" (.modern [samplePlan] []) "e1"
        = .ok (.modern [{ samplePlan with entries := [] }] [],
               [.writeFile (workout_path "u")])
      ∧ parse_plan { samplePlan with entries := [] }
          = .error "Workout plan must contain at least one entry"
      ∧ get_workout_entry (.modern [{ samplePlan with entries := [] }] []) "e1"
          = .error "Workout plan must contain at least one entry" := by
  refine ⟨by decide, by rfl, by decide⟩

/-- C6, counterexample.  The id `"e1"` exists (in `samplePlan`), and
`delete_workout_entry` succeeds — but the follow-up `get_workout_entry`
raises the `ensure_entries` validation error instead of returning absent,
because the delete left the plan's entry list empty.  This refutes the
claim for ids whose owning plan has no other entry. -/
theorem delete_then_get_raises_on_emptied_plan :
    get_workout_entry (.modern [samplePlan] []) "e1" = .ok (some sampleEntry)
      ∧ delete_workout_entry false "u" (.modern [samplePlan] []) "e1"
          = .ok (.modern [{ samplePlan with entries := [] }] [],
                 [.writeFile (workout_path "u")])
      ∧ get_workout_entry (.modern [{ samplePlan with entries := [] }] []) "e1"
          ≠ .ok none := by
  refine ⟨by decide, by decide, by decide⟩

/-- C8.  `set` then `get` within the 30-minute window returns the identical
state, as claimed.  But a `get` more than 30 minutes after the last write
does not return absent: inside `get_state` the expiry branch calls
`_clear_state`, which re-acquires the non-reentrant instance lock the
thread is already holding, so the read blocks forever.  The claimed
"returns absent and clears the entry" behavior never happens. -/
theorem expired_get_deadlocks :
    get_state (set_state emptySM 0 ['u'] ['f'] sampleVal) 1800 ['u'] ['f']
        = .ok (some sampleVal)
      ∧ get_state (set_state emptySM 0 ['u'] ['f'] sampleVal) 1801 ['u'] ['f']
          = .deadlock := by
  refine ⟨by decide, by decide⟩

/-- Parsing a list of stored plans succeeds, returning the list
unchanged, when every plan in it has at least one entry. -/
theorem parse_plans_ok_self {l : List WorkoutPlan} (h : ∀ p ∈ l, p.entries ≠ []) :
    parse_plans l = .ok l := by
  induction l with
  | nil => rfl
  | cons p rest ih =>
    have hp : p.entries ≠ [] := h p (List.mem_cons_self p rest)
    have hrest := ih (fun q hq => h q (List.mem_cons_of_mem p hq))
    unfold parse_plans parse_plan
    rw [if_neg (by simp [List.isEmpty_iff, hp]), hrest]

/-- After filtering an id out of an entry list, no entry with that id
can be found in it. -/
theorem find?_entry_filter_ne {es : List WorkoutEntry} {eid : String} :
    (es.filter (fun e => e.entry_id != eid)).find? (fun e => e.entry_id == eid) = none := by
  rw [List.find?_eq_none]
  intro x hx
  have hni := (List.mem_filter.mp hx).2
  simp only [bne_iff_ne, ne_eq] at hni
  simp [hni]

/-- The in-place replacement loop finds nothing when `find?` finds
nothing. -/
theorem replace_entry_in_list_none {es : List WorkoutEntry} {eid : String}
    {e : WorkoutEntry} (h : es.find? (fun x => x.entry_id == eid) = none) :
    replace_entry_in_list es eid e = none := by
  induction es with
  | nil => rfl
  | cons x rest ih =>
    cases hx : (x.entry_id == eid) with
    | true => simp [List.find?, hx] at h
    | false =>
      simp only [List.find?, hx] at h
      simp [replace_entry_in_list, hx, ih h]

/-- The plan-patching loop finds nothing when the nested entry search
finds nothing. -/
theorem replace_entry_in_plans_none {plans : List WorkoutPlan} {eid : String}
    {e : WorkoutEntry} (h : find_entry_in_plans plans eid = none) :
    replace_entry_in_plans plans eid e = none := by
  induction plans with
  | nil => rfl
  | cons p rest ih =>
    cases hp : p.entries.find? (fun x => x.entry_id == eid) with
    | some y => simp [find_entry_in_plans, List.findSome?, hp] at h
    | none =>
      simp only [find_entry_in_plans, List.findSome?, hp] at h
      simp [replace_entry_in_plans, replace_entry_in_list_none hp, ih h]

/-- After `delete_workout_entry` filters an id out of every plan, the
nested plan search no longer finds it. -/
theorem find_entry_in_plans_filtered (plans : List WorkoutPlan) (eid : String) :
    find_entry_in_plans
      (plans.map (fun p => { p with entries := p.entries.filter (fun e => e.entry_id != eid) }))
      eid = none := by
  induction plans with
  | nil => rfl
  | cons p rest ih =>
    simp only [find_entry_in_plans, List.map_cons, List.findSome?] at *
    rw [find?_entry_filter_ne]
    exact ih

/-- C4.  When the entry id occurs in no plan and not in the standalone
list, `update_workout_entry` raises
`StorageError("Workout entry <id> not found")`; by the embedding's
convention an `error` result performs no file write, so the stored data is
unchanged and nothing is created.  When the id does occur in a plan, the
entry is replaced in place inside the owning plan; when it occurs in no
plan but in the standalone list, it is replaced in place there while the
stored plans are written back untouched — so the plans are searched before
the standalone list, and each branch leaves the other collection exactly as
stored. -/
theorem update_missing_entry_errors
    (user : String) (f : WorkoutFile) (eid : String) (e : WorkoutEntry)
    (plans : List WorkoutPlan)
    (hp : load_plans f = .ok plans) :
    (find_entry_in_plans plans eid = none →
      (load_workout_data f).standalone_workouts.find? (fun w => w.entry_id == eid) = none →
      update_workout_entry false user f eid e
        = .error ("Workout entry " ++ eid ++ " not found"))
    ∧ (∀ plans2, replace_entry_in_plans plans eid e = some plans2 →
        update_workout_entry false user f eid e
          = .ok (.modern plans2 (load_workout_data f).standalone_workouts,
                 [.writeFile (workout_path user)]))
    ∧ (∀ ws, replace_entry_in_plans plans eid e = none →
        replace_entry_in_list (load_workout_data f).standalone_workouts eid e = some ws →
        update_workout_entry false user f eid e
          = .ok (.modern (load_workout_data f).plans ws,
                 [.writeFile (workout_path user)])) := by
  unfold load_plans at hp
  refine ⟨?_, ?_, ?_⟩
  · intro h1 h2
    unfold update_workout_entry withLock
    rw [if_neg (by simp)]
    simp only [hp, replace_entry_in_plans_none h1, replace_entry_in_list_none h2]
  · intro plans2 h1
    unfold update_workout_entry withLock
    rw [if_neg (by simp)]
    simp only [hp, h1]
    rfl
  · intro ws h1 h2
    unfold update_workout_entry withLock
    rw [if_neg (by simp)]
    simp only [hp, h1, h2]
    rfl

/-- C4, witness: `update_workout_entry` on a user with no workout file
at all raises the not-found error, and on a user whose id `"e1"` lives only
in the standalone list it replaces that standalone entry in place. -/
theorem update_missing_witness :
    update_workout_entry false "u" .missing "e1" sampleEntry
        = .error ("Workout entry " ++ "e1" ++ " not found")
      ∧ update_workout_entry false "u" (.modern [] [sampleEntry]) "e1" sampleEntryB
          = .ok (.modern [] [sampleEntryB], [.writeFile (workout_path "u")]) :=
  ⟨(update_missing_entry_errors "u" .missing "e1" sampleEntry [] rfl).1 rfl rfl,
   (update_missing_entry_errors "u" (.modern [] [sampleEntry]) "e1" sampleEntryB []
      rfl).2.2 [sampleEntryB] rfl (by decide)⟩

/-- Filtering an id out of every plan of a parseable list leaves every
plan non-empty, provided each plan also held an entry with a different
id. -/
theorem filtered_plans_nonempty {plans : List WorkoutPlan} {eid : String}
    (hne : ∀ p ∈ plans, ∃ e ∈ p.entries, e.entry_id ≠ eid) :
    ∀ q ∈ plans.map (fun p => { p with entries := p.entries.filter (fun e => e.entry_id != eid) }),
      q.entries ≠ [] := by
  intro q hq
  obtain ⟨p, hp, rfl⟩ := List.mem_map.mp hq
  obtain ⟨e, he, hid⟩ := hne p hp
  exact List.ne_nil_of_mem (List.mem_filter.mpr ⟨he, by simp [hid]⟩)

/-- C6, amended.  For a user whose stored plans parse, and an id such
that every plan also holds at least one entry with a different id (so that
the deletion empties no plan), `delete_workout_entry` followed by
`get_workout_entry` returns absent: the id is removed from every plan and
from the standalone list unconditionally.  Deleting the already-absent id
again is a no-op rather than an error: it succeeds and stores the identical
content.  (Without the no-emptied-plan proviso the claim fails, see the
counterexample: the follow-up read raises instead of returning absent.) -/
theorem delete_then_get_absent
    (user : String) (f : WorkoutFile) (eid : String)
    (plans : List WorkoutPlan)
    (hp : load_plans f = .ok plans)
    (hne : ∀ p ∈ plans, ∃ e ∈ p.entries, e.entry_id ≠ eid) :
    ∀ f2 tr, delete_workout_entry false user f eid = .ok (f2, tr) →
      get_workout_entry f2 eid = .ok none
      ∧ delete_workout_entry false user f2 eid = .ok (f2, tr) := by
  unfold load_plans at hp
  intro f2 tr h
  unfold delete_workout_entry withLock at h
  rw [if_neg (by simp)] at h
  simp only [hp] at h
  injection h with h2
  injection h2 with hf2 htr
  subst hf2
  subst htr
  have hplans2 := filtered_plans_nonempty hne
  have hmap : (plans.map (fun p => { p with entries := p.entries.filter (fun e => e.entry_id != eid) })).map
      (fun p => { p with entries := p.entries.filter (fun e => e.entry_id != eid) })
      = plans.map (fun p => { p with entries := p.entries.filter (fun e => e.entry_id != eid) }) := by
    rw [List.map_map]
    apply List.map_congr_left
    intro p hp2
    simp only [Function.comp]
    congr 1
    apply List.filter_eq_self.mpr
    intro a ha
    exact (List.mem_filter.mp ha).2
  have hws : ∀ ws : List WorkoutEntry,
      (ws.filter (fun w => w.entry_id != eid)).filter (fun w => w.entry_id != eid)
        = ws.filter (fun w => w.entry_id != eid) := by
    intro ws
    apply List.filter_eq_self.mpr
    intro a ha
    exact (List.mem_filter.mp ha).2
  constructor
  · unfold get_workout_entry load_plans
    simp only [save_workout_data, load_workout_data, parse_plans_ok_self hplans2,
               find_entry_in_plans_filtered, find?_entry_filter_ne]
  · unfold delete_workout_entry withLock
    rw [if_neg (by simp)]
    simp only [save_workout_data, load_workout_data, parse_plans_ok_self hplans2]
    rw [hmap, hws]

/-- C6, witness: deleting `"e1"` from a plan that also holds `"e2"`
and from the standalone list, then reading `"e1"` back, returns absent;
repeating the delete is a no-op. -/
theorem delete_then_get_witness :
    get_workout_entry (.modern [{ samplePlan2 with entries := [sampleEntry2] }] []) "e1"
        = .ok none
      ∧ delete_workout_entry false "u"
          (.modern [{ samplePlan2 with entries := [sampleEntry2] }] []) "e1"
          = .ok (.modern [{ samplePlan2 with entries := [sampleEntry2] }] [],
                 [.writeFile (workout_path "u")]) :=
  delete_then_get_absent "u" (.modern [samplePlan2] [sampleEntry]) "e1" [samplePlan2]
    rfl (by decide)
    (.modern [{ samplePlan2 with entries := [sampleEntry2] }] [])
    [.writeFile (workout_path "u")] (by decide)

/-- Upserting twice with the same id collapses to upserting the second
value once: the second call replaces the first at its original position. -/
theorem upsert_upsert_same {s : List WorkoutEntry} {w1 w2 : WorkoutEntry}
    (hid : w1.entry_id = w2.entry_id) :
    upsert_standalone (upsert_standalone s w1) w2 = upsert_standalone s w2 := by
  induction s with
  | nil => simp [upsert_standalone, hid]
  | cons x rest ih =>
    by_cases hx : (x.entry_id == w1.entry_id) = true
    · have hx2 : (x.entry_id == w2.entry_id) = true := by
        rw [beq_iff_eq] at hx ⊢; rw [hx, hid]
      simp [upsert_standalone, hx, hx2, beq_iff_eq, hid]
    · have hx2 : (x.entry_id == w2.entry_id) = false := by
        rw [beq_eq_false_iff_ne]
        intro hc
        exact hx (beq_iff_eq.mpr (hc.trans hid.symm))
      simp only [upsert_standalone, hx, hx2]
      simp only [Bool.false_eq_true, if_false]
      rw [ih]

/-- Upserting into a list holding at most one entry with the id leaves
exactly one entry with the id. -/
theorem countP_upsert_eq_one {s : List WorkoutEntry} {w : WorkoutEntry}
    (h : s.countP (fun x => x.entry_id == w.entry_id) ≤ 1) :
    (upsert_standalone s w).countP (fun x => x.entry_id == w.entry_id) = 1 := by
  induction s with
  | nil => simp [upsert_standalone, List.countP_cons]
  | cons x rest ih =>
    by_cases hx : (x.entry_id == w.entry_id) = true
    · have hcnt : rest.countP (fun x => x.entry_id == w.entry_id) = 0 := by
        rw [List.countP_cons_of_pos (fun y : WorkoutEntry => y.entry_id == w.entry_id) _ hx] at h
        omega
      simp only [upsert_standalone, hx, if_true]
      rw [List.countP_cons_of_pos (fun y : WorkoutEntry => y.entry_id == w.entry_id) _ (by simp), hcnt]
    · have hxf : (x.entry_id == w.entry_id) = false := by
        simpa using hx
      rw [List.countP_cons_of_neg (fun y : WorkoutEntry => y.entry_id == w.entry_id) _ (by simp [hxf])] at h
      simp only [upsert_standalone, hxf, Bool.false_eq_true, if_false]
      rw [List.countP_cons_of_neg (fun y : WorkoutEntry => y.entry_id == w.entry_id) _ (by simp [hxf])]
      exact ih h

/-- Upserting an id that is not in the list appends the entry. -/
theorem upsert_append_of_absent {s : List WorkoutEntry} {w : WorkoutEntry}
    (h : s.find? (fun x => x.entry_id == w.entry_id) = none) :
    upsert_standalone s w = s ++ [w] := by
  induction s with
  | nil => rfl
  | cons x rest ih =>
    cases hx : (x.entry_id == w.entry_id) with
    | true => simp [List.find?, hx] at h
    | false =>
      simp only [List.find?, hx] at h
      simp [upsert_standalone, hx, ih h]

/-- C5.  Starting from a standalone list holding at most one entry with
the shared id, calling `save_standalone_workout` twice — once with each of
two entries sharing an id — leaves exactly one stored standalone entry with
that id, and the resulting list is the single upsert of the second entry
into the original list (the second call replaced the first at its original
position).  A call whose id is not yet in the standalone list appends the
entry at the end. -/
theorem standalone_double_save
    (user : String) (f : WorkoutFile) (w1 w2 : WorkoutEntry)
    (hid : w1.entry_id = w2.entry_id)
    (hdup : (load_workout_data f).standalone_workouts.countP
        (fun x => x.entry_id == w2.entry_id) ≤ 1) :
    (∀ f1 tr1, save_standalone_workout false user f w1 = .ok (f1, tr1) →
      ∀ f2 tr2, save_standalone_workout false user f1 w2 = .ok (f2, tr2) →
        (load_workout_data f2).standalone_workouts.countP
            (fun x => x.entry_id == w2.entry_id) = 1
        ∧ (load_workout_data f2).standalone_workouts
            = upsert_standalone (load_workout_data f).standalone_workouts w2)
    ∧ (∀ w3, (load_workout_data f).standalone_workouts.find?
          (fun x => x.entry_id == w3.entry_id) = none →
        ∀ f3 tr3, save_standalone_workout false user f w3 = .ok (f3, tr3) →
          (load_workout_data f3).standalone_workouts
            = (load_workout_data f).standalone_workouts ++ [w3]) := by
  constructor
  · intro f1 tr1 h1 f2 tr2 h2
    unfold save_standalone_workout withLock at h1 h2
    rw [if_neg (by simp)] at h1 h2
    simp only [save_workout_data] at h1 h2
    injection h1 with h1a
    injection h1a with hf1 htr1
    subst hf1
    injection h2 with h2a
    injection h2a with hf2 htr2
    subst hf2
    simp only [load_workout_data]
    rw [upsert_upsert_same hid]
    exact ⟨countP_upsert_eq_one hdup, rfl⟩
  · intro w3 habs f3 tr3 h3
    unfold save_standalone_workout withLock at h3
    rw [if_neg (by simp)] at h3
    simp only [save_workout_data] at h3
    injection h3 with h3a
    injection h3a with hf3 htr3
    subst hf3
    simp only [load_workout_data]
    exact upsert_append_of_absent habs

/-- C5, witness: saving `sampleEntry` and then `sampleEntryB` (same id
`"e1"`) into an absent file leaves exactly the one entry `sampleEntryB`. -/
theorem standalone_double_witness :
    (load_workout_data (.modern [] [sampleEntryB])).standalone_workouts.countP
        (fun x => x.entry_id == sampleEntryB.entry_id) = 1
      ∧ (load_workout_data (.modern [] [sampleEntryB])).standalone_workouts
          = upsert_standalone (load_workout_data .missing).standalone_workouts sampleEntryB :=
  (standalone_double_save "u" .missing sampleEntry sampleEntryB rfl (by decide)).1
    (.modern [] [sampleEntry]) [.writeFile (workout_path "u")] (by decide)
    (.modern [] [sampleEntryB]) [.writeFile (workout_path "u")] (by decide)

/-- Collecting the day-matching entries plan by plan is the same as
filtering the concatenation of all plans' entries. -/
theorem flatMap_filter_entries (plans : List WorkoutPlan) (d : Day) :
    plans.flatMap (fun p => p.entries.filter (fun e => e.day_of_week == d))
      = (plans.flatMap (fun p => p.entries)).filter (fun e => e.day_of_week == d) := by
  induction plans with
  | nil => rfl
  | cons p rest ih =>
    simp only [List.flatMap_cons, List.filter_append, ih]

/-- C7.  When the stored plans parse: `get_workout_entry` returns the
plan copy whenever the nested plan search finds the id — the standalone
list is not consulted, so on an id present in both collections the plan
copy wins; `get_workout_entries_by_day` returns the plan entries (plans in
storage order, entries in their original order) followed by the standalone
entries in storage order, with no de-duplication — the result is literally
the concatenation of the two filtered collections; and
`get_all_workout_entries` is the concatenation of all plans' entries with
the standalone list. -/
theorem plan_copy_wins_and_order
    (f : WorkoutFile) (plans : List WorkoutPlan)
    (hp : load_plans f = .ok plans) :
    (∀ eid e, find_entry_in_plans plans eid = some e →
        get_workout_entry f eid = .ok (some e))
    ∧ (∀ d, get_workout_entries_by_day f d
          = .ok (((plans.flatMap (fun p => p.entries)).filter (fun e => e.day_of_week == d))
                  ++ (load_workout_data f).standalone_workouts.filter
                      (fun w => w.day_of_week == d)))
    ∧ get_all_workout_entries f
        = .ok (plans.flatMap (fun p => p.entries)
                ++ (load_workout_data f).standalone_workouts) := by
  unfold load_plans at hp
  refine ⟨?_, ?_, ?_⟩
  · intro eid e h
    unfold get_workout_entry
    simp only [load_plans, hp, h]
  · intro d
    unfold get_workout_entries_by_day
    simp only [load_plans, hp, flatMap_filter_entries]
  · unfold get_all_workout_entries
    simp only [load_plans, hp]

/-- C7, witness: with id `"e1"` present both in `samplePlan` and (as
`sampleEntryB`) in the standalone list, `get_workout_entry` returns the
plan copy `sampleEntry`. -/
theorem plan_copy_wins_witness :
    get_workout_entry (.modern [samplePlan] [sampleEntryB]) "e1" = .ok (some sampleEntry) :=
  (plan_copy_wins_and_order (.modern [samplePlan] [sampleEntryB]) [samplePlan] rfl).1
    "e1" sampleEntry (by decide)

/-- C9.  Reading a workouts file whose content is a bare JSON array
yields `{plans: that array, standalone_workouts: []}`, and reading a
bare-array progress file yields `{body_progress: that array,
workout_executions: []}`; and every write operation on these files that
completes stores the modern two-key shape — never the legacy bare array. -/
theorem legacy_read_modern_write :
    (∀ ps, load_workout_data (.legacy ps) = ⟨ps, []⟩)
    ∧ (∀ es, load_progress_data (.legacy es) = ⟨es, []⟩)
    ∧ (∀ f plan f2 tr, save_workout_plan false f plan = .ok (f2, tr) →
        is_modern_workout f2 = true)
    ∧ (∀ user f w f2 tr, save_standalone_workout false user f w = .ok (f2, tr) →
        is_modern_workout f2 = true)
    ∧ (∀ user f eid e f2 tr, update_workout_entry false user f eid e = .ok (f2, tr) →
        is_modern_workout f2 = true)
    ∧ (∀ user f eid f2 tr, delete_workout_entry false user f eid = .ok (f2, tr) →
        is_modern_workout f2 = true)
    ∧ (∀ user f pid f2 tr, deactivate_plan false user f pid = .ok (f2, tr) →
        is_modern_workout f2 = true)
    ∧ (∀ f entry f2 tr, add_progress_entry false f entry = .ok (f2, tr) →
        is_modern_progress f2 = true)
    ∧ (∀ st ex st2 tr, save_workout_execution false st ex = .ok (st2, tr) →
        is_modern_progress st2.progress = true) := by
  refine ⟨fun ps => rfl, fun es => rfl, ?_, ?_, ?_, ?_, ?_, ?_, ?_⟩
  · intro f plan f2 tr h
    unfold save_workout_plan withLock at h
    rw [if_neg (by simp)] at h
    simp only [save_workout_data] at h
    split at h
    · cases h
    · injection h with h2
      injection h2 with hf2 htr
      subst hf2
      rfl
  · intro user f w f2 tr h
    unfold save_standalone_workout withLock at h
    rw [if_neg (by simp)] at h
    simp only [save_workout_data] at h
    injection h with h2
    injection h2 with hf2 htr
    subst hf2
    rfl
  · intro user f eid e f2 tr h
    unfold update_workout_entry withLock at h
    rw [if_neg (by simp)] at h
    simp only [save_workout_data] at h
    split at h
    · cases h
    · split at h
      · injection h with h2
        injection h2 with hf2 htr
        subst hf2
        rfl
      · split at h
        · injection h with h2
          injection h2 with hf2 htr
          subst hf2
          rfl
        · cases h
  · intro user f eid f2 tr h
    unfold delete_workout_entry withLock at h
    rw [if_neg (by simp)] at h
    simp only [save_workout_data] at h
    split at h
    · cases h
    · injection h with h2
      injection h2 with hf2 htr
      subst hf2
      rfl
  · intro user f pid f2 tr h
    unfold deactivate_plan withLock at h
    rw [if_neg (by simp)] at h
    simp only [save_workout_data] at h
    split at h
    · cases h
    · injection h with h2
      injection h2 with hf2 htr
      subst hf2
      rfl
  · intro f entry f2 tr h
    unfold add_progress_entry withLock at h
    rw [if_neg (by simp)] at h
    simp only [save_progress_data] at h
    injection h with h2
    injection h2 with hf2 htr
    subst hf2
    rfl
  · intro st ex st2 tr h
    unfold save_workout_execution withLock at h
    rw [if_neg (by simp)] at h
    simp only [save_progress_data] at h
    split at h
    · cases h
    · cases h
    · injection h with h2
      injection h2 with hst2 htr
      subst hst2
      rfl
    · split at h
      · injection h with h2
        injection h2 with hst2 htr
        subst hst2
        rfl
      · cases h
      · cases h

/-- C9, witness: a save into a legacy-shaped workouts file and an
append into a legacy-shaped progress file both store modern-shaped
files. -/
theorem legacy_modern_witness :
    is_modern_workout (.modern [samplePlan] [sampleEntry]) = true
      ∧ is_modern_progress (.modern [(⟨"u", 5⟩ : ProgressEntry), ⟨"u", 9⟩] []) = true :=
  ⟨legacy_read_modern_write.2.2.2.1 "u" (.legacy [samplePlan]) sampleEntry
      (.modern [samplePlan] [sampleEntry]) [.writeFile (workout_path "u")] (by decide),
   legacy_read_modern_write.2.2.2.2.2.2.2.1 (.legacy [⟨"u", 5⟩]) ⟨"u", 9⟩
      (.modern [⟨"u", 5⟩, ⟨"u", 9⟩] []) [.writeFile (progress_path "u")] (by decide)⟩

/-- Calling `update_workout_entry` while the instance lock is already
held blocks forever on the non-reentrant lock. -/
theorem update_locked_deadlocks (user : String) (f : WorkoutFile) (eid : String)
    (e : WorkoutEntry) : update_workout_entry true user f eid e = .deadlock := rfl

/-- C1, amended.  The global-file operations `save_profile`,
`save_reminder` and `delete_reminder` persist through `_write_json`: their
write trace is a dump to the `.tmp` sibling path followed by an atomic
rename over the target (`delete_reminder` writes nothing when the id is
absent).  The per-user workout and progress operations (`save_workout_plan`,
`save_standalone_workout`, `update_workout_entry`, `delete_workout_entry`,
`deactivate_plan`, `add_progress_entry`, `save_workout_execution`) also
read, mutate and re-serialize the whole collection, but their write trace
is a single direct in-place overwrite of the target file, with no
temporary path and no rename. -/
theorem write_traces_split :
    (∀ file profile out, save_profile false file profile = .ok out →
        out.2 = write_json_events profiles_path)
    ∧ (∀ file reminder out, save_reminder false file reminder = .ok out →
        out.2 = write_json_events reminders_path)
    ∧ (∀ file user rid out, delete_reminder false file user rid = .ok out →
        out.2 = write_json_events reminders_path ∨ out.2 = [])
    ∧ (∀ f plan out, save_workout_plan false f plan = .ok out →
        out.2 = [.writeFile (workout_path plan.user_id)])
    ∧ (∀ user f w out, save_standalone_workout false user f w = .ok out →
        out.2 = [.writeFile (workout_path user)])
    ∧ (∀ user f eid e out, update_workout_entry false user f eid e = .ok out →
        out.2 = [.writeFile (workout_path user)])
    ∧ (∀ user f eid out, delete_workout_entry false user f eid = .ok out →
        out.2 = [.writeFile (workout_path user)])
    ∧ (∀ user f pid out, deactivate_plan false user f pid = .ok out →
        out.2 = [.writeFile (workout_path user)])
    ∧ (∀ f entry out, add_progress_entry false f entry = .ok out →
        out.2 = [.writeFile (progress_path entry.user_id)])
    ∧ (∀ st ex out, save_workout_execution false st ex = .ok out →
        out.2 = [.writeFile (progress_path ex.user_id)]) := by
  refine ⟨?_, ?_, ?_, ?_, ?_, ?_, ?_, ?_, ?_, ?_⟩
  · intro file profile out h
    unfold save_profile withLock at h
    rw [if_neg (by simp)] at h
    injection h with h2
    rw [h2.symm]
  · intro file reminder out h
    unfold save_reminder withLock at h
    rw [if_neg (by simp)] at h
    injection h with h2
    rw [h2.symm]
  · intro file user rid out h
    unfold delete_reminder withLock at h
    rw [if_neg (by simp)] at h
    have h2 : (if (List.lookup rid ((List.lookup user file).getD [])).isSome = true then
          PyResult.ok (dictSet file user (dictPop ((List.lookup user file).getD []) rid),
            write_json_events reminders_path)
        else PyResult.ok (file, ([] : List FsEvent))) = PyResult.ok out := h
    split at h2
    · injection h2 with h3
      exact Or.inl (by rw [h3.symm])
    · injection h2 with h3
      exact Or.inr (by rw [h3.symm])
  · intro f plan out h
    unfold save_workout_plan withLock at h
    rw [if_neg (by simp)] at h
    simp only [save_workout_data] at h
    split at h
    · cases h
    · injection h with h2
      rw [h2.symm]
  · intro user f w out h
    unfold save_standalone_workout withLock at h
    rw [if_neg (by simp)] at h
    simp only [save_workout_data] at h
    injection h with h2
    rw [h2.symm]
  · intro user f eid e out h
    unfold update_workout_entry withLock at h
    rw [if_neg (by simp)] at h
    simp only [save_workout_data] at h
    split at h
    · cases h
    · split at h
      · injection h with h2
        rw [h2.symm]
      · split at h
        · injection h with h2
          rw [h2.symm]
        · cases h
  · intro user f eid out h
    unfold delete_workout_entry withLock at h
    rw [if_neg (by simp)] at h
    simp only [save_workout_data] at h
    split at h
    · cases h
    · injection h with h2
      rw [h2.symm]
  · intro user f pid out h
    unfold deactivate_plan withLock at h
    rw [if_neg (by simp)] at h
    simp only [save_workout_data] at h
    split at h
    · cases h
    · injection h with h2
      rw [h2.symm]
  · intro f entry out h
    unfold add_progress_entry withLock at h
    rw [if_neg (by simp)] at h
    simp only [save_progress_data] at h
    injection h with h2
    rw [h2.symm]
  · intro st ex out h
    unfold save_workout_execution withLock at h
    rw [if_neg (by simp)] at h
    simp only [save_progress_data] at h
    split at h
    · cases h
    · cases h
    · injection h with h2
      rw [h2.symm]
    · rw [update_locked_deadlocks] at h
      simp at h

/-- C1, witness: a concrete profile save goes through the temp + rename
trace, and a concrete standalone-workout save emits the single direct
overwrite of its target. -/
theorem write_traces_witness :
    (([("u", (⟨"u", 30, 0⟩ : UserProfile))], write_json_events profiles_path) :
        ProfilesFile × List FsEvent).2 = write_json_events profiles_path
      ∧ ((WorkoutFile.modern [] [sampleEntry], [FsEvent.writeFile (workout_path "u")]) :
          WorkoutFile × List FsEvent).2 = [FsEvent.writeFile (workout_path "u")] :=
  ⟨write_traces_split.1 [] ⟨"u", 30, 0⟩
      ([("u", ⟨"u", 30, 0⟩)], write_json_events profiles_path) rfl,
   write_traces_split.2.2.2.2.1 "u" .missing sampleEntry
      (.modern [] [sampleEntry], [.writeFile (workout_path "u")]) (by decide)⟩

/-- Concatenation around a colon is injective when neither left part
contains a colon. -/
theorem colon_append_inj {u1 u2 t1 t2 : PyStr}
    (h1 : ':' ∉ u1) (h2 : ':' ∉ u2)
    (h : u1 ++ ':' :: t1 = u2 ++ ':' :: t2) : u1 = u2 ∧ t1 = t2 := by
  induction u1 generalizing u2 with
  | nil =>
    cases u2 with
    | nil => simpa using h
    | cons c u2tl =>
      simp only [List.nil_append, List.cons_append] at h
      injection h with hc htl
      subst hc
      exact absurd (List.mem_cons_self _ _) h2
  | cons c u1tl ih =>
    cases u2 with
    | nil =>
      simp only [List.cons_append, List.nil_append] at h
      injection h with hc htl
      subst hc
      exact absurd (List.mem_cons_self _ _) h1
    | cons c2 u2tl =>
      simp only [List.cons_append] at h
      injection h with hc htl
      subst hc
      have h1tl : ':' ∉ u1tl := fun hm => h1 (List.mem_cons_of_mem _ hm)
      have h2tl : ':' ∉ u2tl := fun hm => h2 (List.mem_cons_of_mem _ hm)
      obtain ⟨hu, ht⟩ := ih h1tl h2tl htl
      exact ⟨by rw [hu], ht⟩

/-- Distinct (user, flow-kind) pairs with colon-free user ids produce
distinct concatenated keys. -/
theorem state_key_ne {u1 t1 u2 t2 : PyStr}
    (h1 : ':' ∉ u1) (h2 : ':' ∉ u2) (hpair : (u1, t1) ≠ (u2, t2)) :
    state_key u1 t1 ≠ state_key u2 t2 := by
  intro h
  obtain ⟨hu, ht⟩ := colon_append_inj h1 h2 h
  exact hpair (by rw [hu, ht])

/-- A user's own prefix matches the user's own keys. -/
theorem key_self_pref (u t : PyStr) :
    (u ++ [':']).isPrefixOf (state_key u t) = true := by
  rw [ List.isPrefixOf_iff_prefix]
  exact ⟨t, by simp [state_key]⟩

/-- With colon-free user ids, one user's prefix never matches another
user's key. -/
theorem key_not_pref_of_ne {u1 u2 : PyStr}
    (h1 : ':' ∉ u1) (h2 : ':' ∉ u2) (hu : u1 ≠ u2) (t2 : PyStr) :
    ¬((u1 ++ [':']).isPrefixOf (state_key u2 t2) = true) := by
  intro h
  rw [ List.isPrefixOf_iff_prefix] at h
  obtain ⟨r, hr⟩ := h
  rw [List.append_assoc, List.singleton_append] at hr
  exact hu (colon_append_inj h1 h2 hr).1

/-- `get_state` reads only the flat entry under the pair's key and the
pair's nested timestamp. -/
theorem get_state_eq_of {sm1 sm2 : UserStateManager} (now : Nat) (u t : PyStr)
    (hs : sm1.states (state_key u t) = sm2.states (state_key u t))
    (ht : tstamp sm1 u t = tstamp sm2 u t) :
    get_state sm1 now u t = get_state sm2 now u t := by
  unfold tstamp at ht
  unfold get_state
  cases h1 : sm1.state_timestamps u with
  | none =>
    cases h2 : sm2.state_timestamps u with
    | none => simp only [hs]
    | some g2 =>
      simp only [h1, h2] at ht
      cases hg : g2 t with
      | none => simp only [hg, hs]
      | some ts => rw [hg] at ht; cases ht
  | some g1 =>
    cases h2 : sm2.state_timestamps u with
    | none =>
      simp only [h1, h2] at ht
      cases hg : g1 t with
      | none => simp only [hg, hs]
      | some ts => rw [hg] at ht; cases ht
    | some g2 =>
      simp only [h1, h2] at ht
      cases hg : g1 t with
      | none =>
        rw [hg] at ht
        simp only [hg, ht.symm, hs]
      | some ts =>
        rw [hg] at ht
        simp only [hg, ← ht, hs]

/-- `set_state` leaves the flat entry of a different key untouched. -/
theorem states_set_ne {sm : UserStateManager} {now : Nat} {u1 t1 u2 t2 : PyStr}
    {v : StateVal} (hk : state_key u1 t1 ≠ state_key u2 t2) :
    (set_state sm now u1 t1 v).states (state_key u2 t2)
      = sm.states (state_key u2 t2) :=
  if_neg (fun h => hk h.symm)

/-- `set_state` leaves the timestamp of a different pair untouched. -/
theorem tstamp_set_ne {sm : UserStateManager} {now : Nat} {u1 t1 u2 t2 : PyStr}
    {v : StateVal} (hpair : (u1, t1) ≠ (u2, t2)) :
    tstamp (set_state sm now u1 t1 v) u2 t2 = tstamp sm u2 t2 := by
  unfold tstamp set_state
  by_cases hu : u2 = u1
  · subst hu
    have hts : t2 ≠ t1 := by
      intro h
      exact hpair (by rw [h])
    cases h : sm.state_timestamps u2 with
    | none => simp [h, hts]
    | some g => simp [h, hts]
  · simp only [if_neg hu]

/-- `clear_state` leaves the flat entry of a different key untouched. -/
theorem states_clear_ne {sm : UserStateManager} {u1 t1 u2 t2 : PyStr}
    (hk : state_key u1 t1 ≠ state_key u2 t2) :
    (clear_state sm u1 t1).states (state_key u2 t2)
      = sm.states (state_key u2 t2) :=
  if_neg (fun h => hk h.symm)

/-- `clear_state` leaves the timestamp of a different pair untouched. -/
theorem tstamp_clear_ne {sm : UserStateManager} {u1 t1 u2 t2 : PyStr}
    (hpair : (u1, t1) ≠ (u2, t2)) :
    tstamp (clear_state sm u1 t1) u2 t2 = tstamp sm u2 t2 := by
  unfold tstamp clear_state
  by_cases hu : u2 = u1
  · subst hu
    have hts : t2 ≠ t1 := by
      intro h
      exact hpair (by rw [h])
    cases h : sm.state_timestamps u2 with
    | none => simp [h, hts]
    | some g => simp [h, hts]
  · simp only [if_neg hu]

/-- `clear_all_states` leaves the flat entries of a different colon-free
user untouched. -/
theorem states_clear_all_ne {sm : UserStateManager} {u1 u2 : PyStr}
    (h1 : ':' ∉ u1) (h2 : ':' ∉ u2) (hu : u1 ≠ u2) (t2 : PyStr) :
    (clear_all_states sm u1).states (state_key u2 t2)
      = sm.states (state_key u2 t2) :=
  if_neg (key_not_pref_of_ne h1 h2 hu t2)

/-- `clear_all_states` leaves the timestamps of a different user
untouched. -/
theorem tstamp_clear_all_ne {sm : UserStateManager} {u1 u2 : PyStr}
    (hu : u1 ≠ u2) (t2 : PyStr) :
    tstamp (clear_all_states sm u1) u2 t2 = tstamp sm u2 t2 := by
  unfold tstamp clear_all_states
  by_cases h : u2 = u1
  · exact absurd h.symm hu
  · simp only [if_neg h]

/-- After `clear_all_states`, reading any pair of that user returns
absent. -/
theorem clear_all_own_absent (sm : UserStateManager) (now : Nat) (u1 t1 : PyStr) :
    get_state (clear_all_states sm u1) now u1 t1 = .ok none := by
  unfold get_state clear_all_states
  simp only [if_pos rfl, key_self_pref, if_true]

/-- C10.  For any two distinct (user, flow-kind) pairs in which neither
user id contains a colon, `set_state`, `update_state` (when it completes)
and `clear_state` on one pair never change the result of `get_state` on the
other, and `clear_all_states` removes exactly its user's entries: reads of
a different colon-free user are unchanged while every pair of the cleared
user reads absent.  Without the colon-free precondition the concatenated
keys collide: the state set for user `"a:b"`, flow `"c"` is returned by a
read of user `"a"`, flow `"b:c"`, and `clear_all_states("a")` removes the
entry belonging to user `"a:b"`. -/
theorem state_isolation :
    (∀ (sm : UserStateManager) (now now2 : Nat) (u1 t1 u2 t2 : PyStr) (v : StateVal),
      ':' ∉ u1 → ':' ∉ u2 → (u1, t1) ≠ (u2, t2) →
        get_state (set_state sm now u1 t1 v) now2 u2 t2 = get_state sm now2 u2 t2
        ∧ get_state (clear_state sm u1 t1) now2 u2 t2 = get_state sm now2 u2 t2
        ∧ (∀ upd sm2, update_state sm now u1 t1 upd = .ok sm2 →
            get_state sm2 now2 u2 t2 = get_state sm now2 u2 t2))
    ∧ (∀ (sm : UserStateManager) (now2 : Nat) (u1 t1 u2 t2 : PyStr),
        ':' ∉ u1 → ':' ∉ u2 → u1 ≠ u2 →
          get_state (clear_all_states sm u1) now2 u2 t2 = get_state sm now2 u2 t2
          ∧ get_state (clear_all_states sm u1) now2 u1 t1 = .ok none)
    ∧ (get_state (set_state emptySM 0 ['a', ':', 'b'] ['c'] sampleVal) 0 ['a'] ['b', ':', 'c']
          = .ok (some sampleVal)
        ∧ get_state (clear_all_states (set_state emptySM 0 ['a', ':', 'b'] ['c'] sampleVal) ['a'])
            0 ['a', ':', 'b'] ['c'] = .ok none) := by
  refine ⟨?_, ?_, by decide, by decide⟩
  · intro sm now now2 u1 t1 u2 t2 v h1 h2 hpair
    have hk := state_key_ne h1 h2 hpair
    refine ⟨get_state_eq_of now2 u2 t2 (states_set_ne hk) (tstamp_set_ne hpair),
            get_state_eq_of now2 u2 t2 (states_clear_ne hk) (tstamp_clear_ne hpair),
            ?_⟩
    intro upd sm2 h
    unfold update_state at h
    cases hg : get_state sm now u1 t1 with
    | ok cur =>
      rw [hg] at h
      injection h with h2a
      subst h2a
      exact get_state_eq_of now2 u2 t2 (states_set_ne hk) (tstamp_set_ne hpair)
    | error e => rw [hg] at h; cases h
    | deadlock => rw [hg] at h; cases h
  · intro sm now2 u1 t1 u2 t2 h1 h2 hu
    exact ⟨get_state_eq_of now2 u2 t2 (states_clear_all_ne h1 h2 hu t2)
             (tstamp_clear_all_ne hu t2),
           clear_all_own_absent sm now2 u1 t1⟩

/-- C10, witness: a concrete set on one pair leaves a read of a
different pair unchanged, and a concrete `clear_all_states` makes its own
user's read absent. -/
theorem state_isolation_witness :
    get_state (set_state emptySM 0 ['u'] ['f'] sampleVal) 5 ['w'] ['f']
        = get_state emptySM 5 ['w'] ['f']
      ∧ get_state (clear_all_states emptySM ['u']) 5 ['u'] ['f'] = .ok none :=
  ⟨(state_isolation.1 emptySM 0 5 ['u'] ['f'] ['w'] ['f'] sampleVal
      (by decide) (by decide) (by decide)).1,
   (state_isolation.2.1 emptySM 5 ['u'] ['f'] ['w'] ['g']
      (by decide) (by decide) (by decide)).2⟩

end HealthyVibe
